import Mathlib

/-!
# Verification of the lanzaboote systemd tool against its specification

This development shallowly embeds the `lanzaboote` systemd tool: the CLI glue
(`rust/tool/systemd/src/cli.rs`, translated directly from the source) and the
generation installer with its collaborators (stub builder, signer, ESP content
store, loader entry writer, orchestrator), which are modelled from the
specification because their Rust sources are not part of this tree.
-/

namespace Lanzaboote

/-! ### Generations -/

/-- Modelled from the spec: a `Generation` is an immutable value describing one
bootable system state: version number, kernel artifact, initrd artifact, and
the ordered kernel command line (§3).  Artifact contents are modelled as byte
lists. -/
structure Generation where
  version : Nat
  kernel : List Nat
  initrd : List Nat
  cmdline : List String
  deriving DecidableEq, Repr

/-- Modelled from the spec: the Architecture Resolver's canonical machine-type
tag (§4.1). -/
inductive Architecture
  | x86_64
  | aarch64
  deriving DecidableEq, Repr

/-- Modelled from the spec: the Architecture Resolver maps a platform
identifier string to a canonical architecture tag, failing with an
`UnsupportedArchitecture`-style error when the string is not in the supported
set (§4.1); the source `architecture.rs` is not in this tree. -/
def Architecture.fromNixosSystem : String → Except String Architecture
  | "x86_64-linux" => .ok .x86_64
  | "aarch64-linux" => .ok .aarch64
  | s => .error ("Unsupported NixOS system: " ++ s)

/-! ### Stub builder and signer -/

/-- Byte encoding of a string, used when embedding text into a stub image. -/
def encodeStr (s : String) : List Nat :=
  s.toList.map Char.toNat

/-- Modelled from the spec: the Stub Builder combines a generation with a stub
template to produce an unsigned unified EFI executable embedding the kernel
reference, initrd reference, the verbatim (order-preserving) command line, and
OS identification metadata including the generation version (§4.3, §3); the
source `pe.rs`/stub-builder module is not in this tree.  It is a pure function
of exactly (template, platform string, generation). -/
def buildStub (template : List Nat) (system : String) (g : Generation) : List Nat :=
  g.version :: (template ++ encodeStr system ++ g.kernel ++ g.initrd ++
    encodeStr (String.intercalate " " g.cmdline))

/-- Modelled from the spec: the Signer capability `sign(bytes) -> signed_bytes`
(§4.2); the local key-pair backend's source is not in this tree.  Signing is a
deterministic in-memory transformation of the input bytes, modelled as
prepending a signature marker. -/
def sign (b : List Nat) : List Nat :=
  1 :: b

/-! ### ESP content store paths -/

/-- Modelled from the spec: the artifact kinds stored content-addressed on the
ESP (§3, `InstalledArtifact`). -/
inductive ArtifactKind
  | kernel
  | initrd
  | stub
  deriving DecidableEq, Repr

/-- Modelled from the spec: an ESP-relative path, a pure function of artifact
kind and content hash (§3, §4.4).  The hash is modelled as the content itself
(an injective hash). -/
structure EspPath where
  kind : ArtifactKind
  hash : List Nat
  deriving DecidableEq, Repr

/-- The content-addressed ESP path of a generation's kernel. -/
def kernelPath (g : Generation) : EspPath :=
  ⟨.kernel, g.kernel⟩

/-- The content-addressed ESP path of a generation's initrd. -/
def initrdPath (g : Generation) : EspPath :=
  ⟨.initrd, g.initrd⟩

/-- The static configuration of one installer invocation: the stub template
bytes and the platform identifier string. -/
structure Config where
  template : List Nat
  system : String
  deriving DecidableEq, Repr

/-- The signed stub image bytes for a generation. -/
def stubBytes (cfg : Config) (g : Generation) : List Nat :=
  sign (buildStub cfg.template cfg.system g)

/-- The content-addressed ESP path of a generation's signed stub. -/
def stubPath (cfg : Config) (g : Generation) : EspPath :=
  ⟨.stub, stubBytes cfg g⟩

/-! ### Loader entries and ESP state -/

/-- Modelled from the spec: a bootloader loader entry for one generation,
referencing the installed artifact paths (§3, §4.5). -/
structure LoaderEntry where
  version : Nat
  stub : EspPath
  kernel : EspPath
  initrd : EspPath
  deriving DecidableEq, Repr

/-- The loader entry written for a generation. -/
def entryFor (cfg : Config) (g : Generation) : LoaderEntry :=
  ⟨g.version, stubPath cfg g, kernelPath g, initrdPath g⟩

/-- The observable ESP state: the set of stored artifact files (as their
content-addressed paths, which determine their contents) and the set of
loader entries. -/
structure EspState where
  files : List EspPath
  entries : List LoaderEntry
  deriving DecidableEq, Repr

/-- An empty ESP. -/
def EspState.empty : EspState :=
  ⟨[], []⟩

/-- One observable filesystem step of an installer run.  Each step is a single
atomic operation (§4.4/§4.5: atomic temp-then-rename writes, removals). -/
inductive Step
  | putFile (p : EspPath)
  | writeEntry (e : LoaderEntry)
  | removeEntry (v : Nat)
  | removeFile (p : EspPath)
  deriving DecidableEq, Repr

/-- Modelled from the spec: the effect of one step on the ESP.  `putFile` is
the Content Store's `put`: a no-op when a file already exists at the
content-derived path (§4.4); `writeEntry` creates or overwrites the entry for
its generation version (§4.5); `removeEntry`/`removeFile` are the pruning
removals. -/
def applyStep (s : EspState) : Step → EspState
  | .putFile p => if p ∈ s.files then s else ⟨p :: s.files, s.entries⟩
  | .writeEntry e => ⟨s.files, e :: s.entries.filter fun e2 => e2.version ≠ e.version⟩
  | .removeEntry v => ⟨s.files, s.entries.filter fun e2 => e2.version ≠ v⟩
  | .removeFile p => ⟨s.files.filter fun q => q ≠ p, s.entries⟩

/-- Apply a list of steps in order. -/
def applyAll (s : EspState) (l : List Step) : EspState :=
  l.foldl applyStep s

/-! ### The generation installer -/

/-- The descending-version order on generations. -/
def versionGe (a b : Generation) : Prop :=
  b.version ≤ a.version

instance : DecidableRel versionGe := fun a b =>
  inferInstanceAs (Decidable (b.version ≤ a.version))

instance : IsTotal Generation versionGe :=
  ⟨fun a b => Nat.le_total b.version a.version⟩

instance : IsTrans Generation versionGe :=
  ⟨fun _ _ _ h1 h2 => Nat.le_trans h2 h1⟩

/-- Sort generations by version, descending (spec §4.6 step 1). -/
def sortDesc (gens : List Generation) : List Generation :=
  gens.insertionSort versionGe

/-- Modelled from the spec: the retained set — input generations sorted by
version descending, truncated to the configuration limit (§4.6 step 1). -/
def retained (limit : Nat) (gens : List Generation) : List Generation :=
  (sortDesc gens).take limit

/-- The generations beyond the configuration limit, which are not installed. -/
def excluded (limit : Nat) (gens : List Generation) : List Generation :=
  (sortDesc gens).drop limit

/-- Modelled from the spec: the steps installing one generation — store
kernel, initrd and signed stub via the Content Store, then write its loader
entry (§4.6 step 2; §5: entries are written strictly after their referenced
artifacts are durably stored). -/
def genSteps (cfg : Config) (g : Generation) : List Step :=
  [.putFile (kernelPath g), .putFile (initrdPath g), .putFile (stubPath cfg g),
    .writeEntry (entryFor cfg g)]

/-- The write phase of an install run: install every retained generation in
order. -/
def writePhase (cfg : Config) (gens : List Generation) : List Step :=
  (gens.map (genSteps cfg)).flatten

/-- Whether any loader entry references the given artifact path. -/
def referenced (entries : List LoaderEntry) (p : EspPath) : Bool :=
  entries.any fun e => e.stub = p || e.kernel = p || e.initrd = p

/-- Modelled from the spec: pruning of stale loader entries — scan existing
entries and remove every entry whose generation version is not in the
retained set (§4.6 step 3). -/
def pruneEntrySteps (retainedVers : List Nat) (s : EspState) : List Step :=
  (s.entries.filter fun e => e.version ∉ retainedVers).map fun e => .removeEntry e.version

/-- Modelled from the spec: pruning of unreferenced artifacts — remove every
stored file no longer referenced by any remaining entry (§4.6 step 3). -/
def pruneFileSteps (s : EspState) : List Step :=
  (s.files.filter fun p => ¬ referenced s.entries p).map .removeFile

/-- Modelled from the spec: the full step sequence of one `install` run over
an initial ESP state — write phase for the retained generations first, then
entry pruning, then artifact pruning (§4.6: write-before-prune ordering is
mandatory). -/
def installSteps (cfg : Config) (limit : Nat) (gens : List Generation)
    (s0 : EspState) : List Step :=
  let r := retained limit gens
  let w := writePhase cfg r
  let s1 := applyAll s0 w
  let pe := pruneEntrySteps (r.map Generation.version) s1
  let s2 := applyAll s1 pe
  w ++ pe ++ pruneFileSteps s2

/-- Modelled from the spec: the `install` public operation of the Generation
Installer (§4.6). -/
def install (cfg : Config) (limit : Nat) (gens : List Generation)
    (s0 : EspState) : EspState :=
  applyAll s0 (installSteps cfg limit gens s0)

/-- Modelled from the spec: the `build_generation` public operation — build,
sign and store the artifacts for a single generation and write its loader
entry, without touching retention or pruning (§4.6). -/
def buildGeneration (cfg : Config) (g : Generation) (s : EspState) : EspState :=
  applyAll s (genSteps cfg g)

/-! ### Validity of an ESP state -/

/-- A loader entry is valid w.r.t. a set of stored files when every artifact
it references exists (§3: entry existence implies its referenced artifacts
exist). -/
def entryValid (files : List EspPath) (e : LoaderEntry) : Prop :=
  e.stub ∈ files ∧ e.kernel ∈ files ∧ e.initrd ∈ files

instance (files : List EspPath) (e : LoaderEntry) : Decidable (entryValid files e) := by
  unfold entryValid
  infer_instance

/-- An ESP state is valid when no loader entry references a missing
artifact. -/
def validEsp (s : EspState) : Prop :=
  ∀ e ∈ s.entries, entryValid s.files e

instance (s : EspState) : Decidable (validEsp s) := by
  unfold validEsp
  infer_instance

/-! ### CLI layer, translated from `rust/tool/systemd/src/cli.rs` -/

/-- The outcome of running a subcommand: normal success, an `anyhow` error
returned to `Cli::call` (a reported failure), or a Rust panic (an uncontrolled
crash, e.g. from `Option::expect`). -/
inductive Outcome
  | success
  | failure (msg : String)
  | panicked (msg : String)
  deriving DecidableEq, Repr

/-- Whether an outcome is an error returned from the subcommand (the `Err`
branch of `Cli::call`); panics unwind past that branch. -/
def Outcome.isReportedFailure : Outcome → Bool
  | .failure _ => true
  | _ => false

/-- Observable non-filesystem actions taken by a subcommand, in order. -/
inductive Action
  | readEnvVar (name : String)
  | constructSigner
  | resolveGeneration
  | constructInstaller
  | fsWrite (st : Step)
  | installBootloader
  deriving DecidableEq, Repr

/-- The process environment, as far as `cli.rs` reads it: the
`LANZABOOTE_STUB` variable. -/
structure Env where
  lanzabooteStub : Option String
  deriving DecidableEq, Repr

/-- The `BuildCommand` arguments (`cli.rs`).  `publicKey`/`privateKey` are
`Option<PathBuf>` in the source.  `generation` holds the result of resolving
the generation link: `Generation::from_toplevel` is not in this tree, so per
the spec (out of scope, "consumed as an already-resolved `Generation` value")
it is modelled as an optional already-resolved generation, `none` meaning
resolution fails. -/
structure BuildArgs where
  system : String
  systemd : Option String
  systemdBootLoaderConfig : Option String
  publicKey : Option String
  privateKey : Option String
  esp : String
  generation : Option Generation
  deriving DecidableEq, Repr

/-- The `InstallCommand` arguments (`cli.rs`).  `configurationLimit` is `none`
when `--configuration-limit` is absent from the command line; clap's
`default_value_t = 1` then applies.  `generations` holds the already-resolved
generation values (resolution is out of scope per the spec). -/
structure InstallArgs where
  system : String
  systemd : String
  systemdBootLoaderConfig : String
  systemdPcrlock : String
  publicKey : Option String
  privateKey : Option String
  configurationLimit : Option Nat
  esp : String
  generations : List Generation
  deriving DecidableEq, Repr

/-- The configuration limit after clap argument parsing: the supplied value,
or `1` via `default_value_t = 1` when the flag is absent (`cli.rs`). -/
def InstallArgs.effectiveConfigurationLimit (a : InstallArgs) : Nat :=
  a.configurationLimit.getD 1

/-- The result of one subcommand run: its outcome, the ordered trace of
observable actions, and the resulting ESP state. -/
structure CliRun where
  outcome : Outcome
  actions : List Action
  state : EspState
  deriving DecidableEq, Repr

/-- The installer configuration built by the CLI: the stub template located
through the `LANZABOOTE_STUB` path (template bytes modelled as determined by
that path) and the platform string. -/
def cliConfig (stub : String) (system : String) : Config :=
  ⟨encodeStr stub, system⟩

/-- The `build` subcommand (`cli.rs` fn `build`): read `LANZABOOTE_STUB`
(failing with context when unset), construct the local signer — panicking via
`expect` when either key path is missing, public key first —, resolve the
generation, resolve the architecture, construct the installer, run
`build_generation`, and install the bootloader when a systemd path was
given. -/
def buildCli (env : Env) (args : BuildArgs) (s0 : EspState) : CliRun :=
  match env.lanzabooteStub with
  | none =>
      ⟨.failure "Failed to read LANZABOOTE_STUB env variable",
        [.readEnvVar "LANZABOOTE_STUB"], s0⟩
  | some stub =>
      match args.publicKey with
      | none =>
          ⟨.panicked "Failed to obtain public key", [.readEnvVar "LANZABOOTE_STUB"], s0⟩
      | some _ =>
          match args.privateKey with
          | none =>
              ⟨.panicked "Failed to obtain private key",
                [.readEnvVar "LANZABOOTE_STUB"], s0⟩
          | some _ =>
              match args.generation with
              | none =>
                  ⟨.failure "Failed to build generation from link",
                    [.readEnvVar "LANZABOOTE_STUB", .constructSigner], s0⟩
              | some g =>
                  match Architecture.fromNixosSystem args.system with
                  | .error e =>
                      ⟨.failure e,
                        [.readEnvVar "LANZABOOTE_STUB", .constructSigner,
                          .resolveGeneration], s0⟩
                  | .ok _ =>
                      let cfg := cliConfig stub args.system
                      ⟨.success,
                        [.readEnvVar "LANZABOOTE_STUB", .constructSigner,
                            .resolveGeneration, .constructInstaller] ++
                          (genSteps cfg g).map .fsWrite ++
                          (if args.systemd.isSome then [.installBootloader] else []),
                        buildGeneration cfg g s0⟩

/-- The `install` subcommand (`cli.rs` fn `install`): read `LANZABOOTE_STUB`
(failing with context when unset), construct the local signer — panicking via
`expect` when either key path is missing, public key first —, resolve the
architecture, construct the installer with the effective configuration limit,
and run the installer's `install`. -/
def installCli (env : Env) (args : InstallArgs) (s0 : EspState) : CliRun :=
  match env.lanzabooteStub with
  | none =>
      ⟨.failure "Failed to read LANZABOOTE_STUB env variable",
        [.readEnvVar "LANZABOOTE_STUB"], s0⟩
  | some stub =>
      match args.publicKey with
      | none =>
          ⟨.panicked "Failed to obtain public key", [.readEnvVar "LANZABOOTE_STUB"], s0⟩
      | some _ =>
          match args.privateKey with
          | none =>
              ⟨.panicked "Failed to obtain private key",
                [.readEnvVar "LANZABOOTE_STUB"], s0⟩
          | some _ =>
              match Architecture.fromNixosSystem args.system with
              | .error e =>
                  ⟨.failure e, [.readEnvVar "LANZABOOTE_STUB", .constructSigner], s0⟩
              | .ok _ =>
                  let cfg := cliConfig stub args.system
                  let limit := args.effectiveConfigurationLimit
                  ⟨.success,
                    [.readEnvVar "LANZABOOTE_STUB", .constructSigner,
                        .constructInstaller] ++
                      (installSteps cfg limit args.generations s0).map .fsWrite,
                    install cfg limit args.generations s0⟩

/-- The two subcommands (`cli.rs` enum `Commands`). -/
inductive Commands
  | build (args : BuildArgs)
  | install (args : InstallArgs)
  deriving DecidableEq, Repr

/-- `Commands::call` (`cli.rs`): dispatch to the subcommand. -/
def Commands.call (env : Env) (c : Commands) (s0 : EspState) : CliRun :=
  match c with
  | .build args => buildCli env args s0
  | .install args => installCli env args s0

/-- The user-visible result of `Cli::call`: the message passed to
`log::error!`, if any, and the exit code passed to `std::process::exit`, if
any (`none` meaning the function returns normally). -/
structure ProcessResult where
  loggedError : Option String
  exitCode : Option Nat
  deriving DecidableEq, Repr

/-- `Cli::call` (`cli.rs`): run the subcommand; on `Err(e)` log the error and
exit with status 1; on `Ok` return normally.  A panic unwinds past the error
branch and terminates the process with the Rust panic exit status (101),
without going through `log::error!`. -/
def cliCall (o : Outcome) : ProcessResult :=
  match o with
  | .success => ⟨none, none⟩
  | .failure e => ⟨some e, some 1⟩
  | .panicked _ => ⟨none, some 101⟩

/-- A full CLI invocation: run the subcommand, then map its outcome through
`Cli::call`'s error handling. -/
def cliRun (env : Env) (c : Commands) (s0 : EspState) : ProcessResult :=
  cliCall (Commands.call env c s0).outcome

/-! ### Basic lemmas about steps and states -/

theorem EspState.ext' {a b : EspState} (h1 : a.files = b.files)
    (h2 : a.entries = b.entries) : a = b := by
  cases a
  cases b
  cases h1
  cases h2
  rfl

theorem applyAll_nil (s : EspState) : applyAll s [] = s := rfl

theorem applyAll_cons (s : EspState) (st : Step) (l : List Step) :
    applyAll s (st :: l) = applyAll (applyStep s st) l := rfl

theorem applyAll_append (s : EspState) (a b : List Step) :
    applyAll s (a ++ b) = applyAll (applyAll s a) b :=
  List.foldl_append _ _ _ _

theorem entries_putFile (s : EspState) (p : EspPath) :
    (applyStep s (.putFile p)).entries = s.entries := by
  by_cases h : p ∈ s.files <;> simp [applyStep, h]

theorem files_writeEntry (s : EspState) (e : LoaderEntry) :
    (applyStep s (.writeEntry e)).files = s.files := rfl

theorem entries_writeEntry (s : EspState) (e : LoaderEntry) :
    (applyStep s (.writeEntry e)).entries =
      e :: s.entries.filter fun e2 => e2.version ≠ e.version := rfl

theorem files_removeEntry (s : EspState) (v : Nat) :
    (applyStep s (.removeEntry v)).files = s.files := rfl

theorem entries_removeFile (s : EspState) (p : EspPath) :
    (applyStep s (.removeFile p)).entries = s.entries := rfl

theorem mem_files_putFile (s : EspState) (p q : EspPath) :
    q ∈ (applyStep s (.putFile p)).files ↔ q = p ∨ q ∈ s.files := by
  by_cases h : p ∈ s.files
  · simp only [applyStep, if_pos h]
    constructor
    · exact fun hq => Or.inr hq
    · rintro (rfl | hq)
      · exact h
      · exact hq
  · simp only [applyStep, if_neg h]
    simp [List.mem_cons]

theorem self_mem_files_putFile (s : EspState) (p : EspPath) :
    p ∈ (applyStep s (.putFile p)).files :=
  (mem_files_putFile s p p).mpr (Or.inl rfl)

theorem files_subset_putFile (s : EspState) (p : EspPath) :
    s.files ⊆ (applyStep s (.putFile p)).files :=
  fun _ hq => (mem_files_putFile s p _).mpr (Or.inr hq)

theorem putFile_noop (s : EspState) (p : EspPath) (h : p ∈ s.files) :
    applyStep s (.putFile p) = s := by
  simp [applyStep, if_pos h]

theorem files_nodup_applyStep (s : EspState) (st : Step) (h : s.files.Nodup) :
    (applyStep s st).files.Nodup := by
  cases st with
  | putFile p =>
      by_cases hp : p ∈ s.files
      · simpa [applyStep, hp] using h
      · simp only [applyStep, if_neg hp]
        exact List.Nodup.cons (fun hmem => hp hmem) h
  | writeEntry e => exact h
  | removeEntry v => exact h
  | removeFile p => exact List.Nodup.filter _ h

theorem files_nodup_applyAll (l : List Step) (s : EspState) (h : s.files.Nodup) :
    (applyAll s l).files.Nodup := by
  induction l generalizing s with
  | nil => exact h
  | cons st l ih => exact ih _ (files_nodup_applyStep s st h)

theorem referenced_iff (entries : List LoaderEntry) (p : EspPath) :
    referenced entries p = true ↔
      ∃ e ∈ entries, e.stub = p ∨ e.kernel = p ∨ e.initrd = p := by
  unfold referenced
  simp [List.any_eq_true, Bool.or_eq_true, decide_eq_true_iff, or_assoc]

/-! ### The effect of installing one generation -/

theorem entries_applyAll_genSteps (cfg : Config) (g : Generation) (s : EspState) :
    (applyAll s (genSteps cfg g)).entries =
      entryFor cfg g :: (s.entries.filter fun e => e.version ≠ g.version) := by
  simp only [genSteps, applyAll, List.foldl_cons, List.foldl_nil]
  rw [entries_writeEntry, entries_putFile, entries_putFile, entries_putFile]
  rfl

theorem mem_files_applyAll_genSteps (cfg : Config) (g : Generation) (s : EspState)
    (q : EspPath) :
    q ∈ (applyAll s (genSteps cfg g)).files ↔
      q = kernelPath g ∨ q = initrdPath g ∨ q = stubPath cfg g ∨ q ∈ s.files := by
  simp only [genSteps, applyAll, List.foldl_cons, List.foldl_nil]
  rw [files_writeEntry, mem_files_putFile, mem_files_putFile, mem_files_putFile]
  tauto

/-! ### The effect of the write phase -/

theorem writePhase_nil (cfg : Config) : writePhase cfg [] = [] := rfl

theorem writePhase_cons (cfg : Config) (g : Generation) (gs : List Generation) :
    writePhase cfg (g :: gs) = genSteps cfg g ++ writePhase cfg gs := by
  simp [writePhase]

theorem entries_applyAll_writePhase (cfg : Config) :
    ∀ (gs : List Generation) (s : EspState),
      (gs.map Generation.version).Nodup →
      (applyAll s (writePhase cfg gs)).entries =
        (gs.map (entryFor cfg)).reverse ++
          (s.entries.filter fun e => e.version ∉ gs.map Generation.version) := by
  intro gs
  induction gs with
  | nil =>
      intro s _
      simp [writePhase_nil, applyAll_nil]
  | cons g gs ih =>
      intro s h
      have h' : (g.version :: gs.map Generation.version).Nodup := by simpa using h
      have hhead : g.version ∉ gs.map Generation.version := (List.nodup_cons.mp h').1
      have htail : (gs.map Generation.version).Nodup := (List.nodup_cons.mp h').2
      rw [writePhase_cons, applyAll_append, ih _ htail, entries_applyAll_genSteps]
      rw [List.filter_cons_of_pos (by simpa using hhead)]
      rw [List.filter_filter]
      have hpred :
          (s.entries.filter fun e =>
              decide (e.version ∉ gs.map Generation.version) && decide (e.version ≠ g.version)) =
            s.entries.filter fun e =>
              e.version ∉ (g :: gs).map Generation.version := by
        apply List.filter_congr
        intro e _
        by_cases h1 : e.version = g.version <;>
          by_cases h2 : e.version ∈ gs.map Generation.version <;>
            simp [h1, h2]
      rw [hpred]
      simp [List.append_assoc]

theorem mem_files_applyAll_writePhase (cfg : Config) :
    ∀ (gs : List Generation) (s : EspState) (q : EspPath),
      q ∈ (applyAll s (writePhase cfg gs)).files ↔
        (∃ g ∈ gs, q = kernelPath g ∨ q = initrdPath g ∨ q = stubPath cfg g) ∨
          q ∈ s.files := by
  intro gs
  induction gs with
  | nil =>
      intro s q
      simp [writePhase_nil, applyAll_nil]
  | cons g gs ih =>
      intro s q
      rw [writePhase_cons, applyAll_append, ih, mem_files_applyAll_genSteps]
      simp only [List.mem_cons]
      constructor
      · rintro (⟨g2, hg2, hq⟩ | hq)
        · exact Or.inl ⟨g2, Or.inr hg2, hq⟩
        · rcases hq with hq | hq | hq | hq
          · exact Or.inl ⟨g, Or.inl rfl, Or.inl hq⟩
          · exact Or.inl ⟨g, Or.inl rfl, Or.inr (Or.inl hq)⟩
          · exact Or.inl ⟨g, Or.inl rfl, Or.inr (Or.inr hq)⟩
          · exact Or.inr hq
      · rintro (⟨g2, rfl | hg2, hq⟩ | hq)
        · exact Or.inr (by tauto)
        · exact Or.inl ⟨g2, hg2, hq⟩
        · exact Or.inr (by tauto)

/-! ### Retention facts -/

theorem sortDesc_perm (gens : List Generation) : (sortDesc gens).Perm gens :=
  List.perm_insertionSort _ _

theorem length_sortDesc (gens : List Generation) :
    (sortDesc gens).length = gens.length :=
  List.length_insertionSort _ _

theorem sortDesc_sorted (gens : List Generation) :
    List.Pairwise versionGe (sortDesc gens) :=
  List.sorted_insertionSort _ _

theorem length_retained (limit : Nat) (gens : List Generation)
    (h : limit ≤ gens.length) : (retained limit gens).length = limit := by
  simp [retained, List.length_take, length_sortDesc, Nat.min_eq_left h]

theorem nodup_versions_sortDesc (gens : List Generation)
    (h : (gens.map Generation.version).Nodup) :
    ((sortDesc gens).map Generation.version).Nodup :=
  (((sortDesc_perm gens).map _).nodup_iff).mpr h

theorem nodup_versions_retained (limit : Nat) (gens : List Generation)
    (h : (gens.map Generation.version).Nodup) :
    ((retained limit gens).map Generation.version).Nodup := by
  rw [retained, List.map_take]
  exact (nodup_versions_sortDesc gens h).sublist (List.take_sublist _ _)

theorem versionGe_retained_excluded (limit : Nat) (gens : List Generation) :
    ∀ g ∈ retained limit gens, ∀ g2 ∈ excluded limit gens, versionGe g g2 := by
  have hs : List.Pairwise versionGe (retained limit gens ++ excluded limit gens) := by
    rw [retained, excluded, List.take_append_drop]
    exact sortDesc_sorted gens
  exact (List.pairwise_append.mp hs).2.2

theorem version_ne_retained_excluded (limit : Nat) (gens : List Generation)
    (hnd : (gens.map Generation.version).Nodup) :
    ∀ g ∈ retained limit gens, ∀ g2 ∈ excluded limit gens,
      g.version ≠ g2.version := by
  have hnd2 : ((retained limit gens).map Generation.version ++
      (excluded limit gens).map Generation.version).Nodup := by
    rw [← List.map_append, retained, excluded, List.take_append_drop]
    exact nodup_versions_sortDesc gens hnd
  have hdisj := (List.nodup_append.mp hnd2).2.2
  intro g hg g2 hg2 heq
  exact hdisj (List.mem_map_of_mem _ hg) (heq ▸ List.mem_map_of_mem _ hg2)

theorem version_lt_retained_excluded (limit : Nat) (gens : List Generation)
    (hnd : (gens.map Generation.version).Nodup) :
    ∀ g ∈ retained limit gens, ∀ g2 ∈ excluded limit gens,
      g2.version < g.version := by
  intro g hg g2 hg2
  exact Nat.lt_of_le_of_ne (versionGe_retained_excluded limit gens g hg g2 hg2)
    fun h => version_ne_retained_excluded limit gens hnd g hg g2 hg2 h.symm

/-! ### Pruning is a no-op when everything is retained and referenced -/

theorem pruneEntrySteps_eq_nil (rv : List Nat) (s : EspState)
    (h : ∀ e ∈ s.entries, e.version ∈ rv) : pruneEntrySteps rv s = [] := by
  have hf : (s.entries.filter fun e => e.version ∉ rv) = [] :=
    List.filter_eq_nil_iff.mpr (by intro e he; simpa using h e he)
  unfold pruneEntrySteps
  rw [hf, List.map_nil]

theorem pruneFileSteps_eq_nil (s : EspState)
    (h : ∀ p ∈ s.files, referenced s.entries p = true) : pruneFileSteps s = [] := by
  have hf : (s.files.filter fun p => ¬ referenced s.entries p) = [] :=
    List.filter_eq_nil_iff.mpr (by intro p hp; simpa using h p hp)
  unfold pruneFileSteps
  rw [hf, List.map_nil]

/-! ### Installing into an empty ESP -/

theorem entries_writePhase_empty (cfg : Config) (gs : List Generation)
    (hnd : (gs.map Generation.version).Nodup) :
    (applyAll .empty (writePhase cfg gs)).entries =
      (gs.map (entryFor cfg)).reverse := by
  rw [entries_applyAll_writePhase cfg gs .empty hnd]
  simp [EspState.empty]

theorem mem_files_writePhase_empty (cfg : Config) (gs : List Generation)
    (q : EspPath) :
    q ∈ (applyAll .empty (writePhase cfg gs)).files ↔
      ∃ g ∈ gs, q = kernelPath g ∨ q = initrdPath g ∨ q = stubPath cfg g := by
  rw [mem_files_applyAll_writePhase cfg gs .empty q]
  simp [EspState.empty]

theorem installSteps_empty (cfg : Config) (limit : Nat) (gens : List Generation)
    (hnd : (gens.map Generation.version).Nodup) :
    installSteps cfg limit gens .empty = writePhase cfg (retained limit gens) := by
  have hr := nodup_versions_retained limit gens hnd
  have hent := entries_writePhase_empty cfg (retained limit gens) hr
  have hpe : pruneEntrySteps ((retained limit gens).map Generation.version)
      (applyAll .empty (writePhase cfg (retained limit gens))) = [] := by
    apply pruneEntrySteps_eq_nil
    intro e he
    rw [hent, List.mem_reverse, List.mem_map] at he
    obtain ⟨g, hg, rfl⟩ := he
    exact List.mem_map_of_mem _ hg
  have hpf : pruneFileSteps
      (applyAll (applyAll .empty (writePhase cfg (retained limit gens))) []) = [] := by
    rw [applyAll_nil]
    apply pruneFileSteps_eq_nil
    intro p hp
    rw [mem_files_writePhase_empty] at hp
    obtain ⟨g, hg, hq⟩ := hp
    rw [referenced_iff]
    refine ⟨entryFor cfg g, ?_, ?_⟩
    · rw [hent, List.mem_reverse]
      exact List.mem_map_of_mem _ hg
    · rcases hq with rfl | rfl | rfl
      · exact Or.inr (Or.inl rfl)
      · exact Or.inr (Or.inr rfl)
      · exact Or.inl rfl
  simp only [installSteps]
  rw [hpe]
  rw [hpf]
  simp

theorem install_empty_eq (cfg : Config) (limit : Nat) (gens : List Generation)
    (hnd : (gens.map Generation.version).Nodup) :
    install cfg limit gens .empty =
      applyAll .empty (writePhase cfg (retained limit gens)) := by
  rw [install, installSteps_empty cfg limit gens hnd]

theorem entries_install_empty (cfg : Config) (limit : Nat) (gens : List Generation)
    (hnd : (gens.map Generation.version).Nodup) :
    (install cfg limit gens .empty).entries =
      ((retained limit gens).map (entryFor cfg)).reverse := by
  rw [install_empty_eq cfg limit gens hnd]
  exact entries_writePhase_empty cfg _ (nodup_versions_retained limit gens hnd)

theorem mem_files_install_empty (cfg : Config) (limit : Nat) (gens : List Generation)
    (hnd : (gens.map Generation.version).Nodup) (q : EspPath) :
    q ∈ (install cfg limit gens .empty).files ↔
      ∃ g ∈ retained limit gens,
        q = kernelPath g ∨ q = initrdPath g ∨ q = stubPath cfg g := by
  rw [install_empty_eq cfg limit gens hnd]
  exact mem_files_writePhase_empty cfg _ q

theorem stubPath_version_eq {cfg : Config} {g g2 : Generation}
    (h : stubPath cfg g = stubPath cfg g2) : g.version = g2.version := by
  have hb : stubBytes cfg g = stubBytes cfg g2 := by
    simpa [stubPath] using h
  have h2 : buildStub cfg.template cfg.system g =
      buildStub cfg.template cfg.system g2 := by
    simpa [stubBytes, sign] using hb
  simp only [buildStub, List.cons.injEq] at h2
  exact h2.1

/-! ### Claim C1 -/

/-- C1: after `install` with retention limit `L` over `N > L` generations
(distinct versions) into an empty ESP, exactly `L` loader entries exist, they
are exactly the entries of the `L` highest-versioned generations (the input
sorted by version descending and truncated to `L`, every excluded generation
having a strictly lower version than every retained one), and artifacts
belonging to excluded generations are absent: an excluded generation's stub is
never present, and its kernel/initrd are absent whenever they are not shared
byte-for-byte with a retained generation. -/
theorem install_retention_bound (cfg : Config) (limit : Nat)
    (gens : List Generation) (hnd : (gens.map Generation.version).Nodup)
    (hlt : limit < gens.length) :
    (install cfg limit gens .empty).entries.length = limit ∧
    (∀ e ∈ (install cfg limit gens .empty).entries,
      ∃ g ∈ retained limit gens, e = entryFor cfg g) ∧
    (∀ g ∈ retained limit gens,
      entryFor cfg g ∈ (install cfg limit gens .empty).entries) ∧
    (∀ g ∈ retained limit gens, ∀ g2 ∈ excluded limit gens,
      g2.version < g.version) ∧
    (∀ g2 ∈ excluded limit gens,
      stubPath cfg g2 ∉ (install cfg limit gens .empty).files ∧
      ((∀ g ∈ retained limit gens, g2.kernel ≠ g.kernel) →
        kernelPath g2 ∉ (install cfg limit gens .empty).files) ∧
      ((∀ g ∈ retained limit gens, g2.initrd ≠ g.initrd) →
        initrdPath g2 ∉ (install cfg limit gens .empty).files)) := by
  have hent := entries_install_empty cfg limit gens hnd
  refine ⟨?_, ?_, ?_, ?_, ?_⟩
  · rw [hent]
    simp [length_retained limit gens (Nat.le_of_lt hlt)]
  · intro e he
    rw [hent, List.mem_reverse, List.mem_map] at he
    obtain ⟨g, hg, rfl⟩ := he
    exact ⟨g, hg, rfl⟩
  · intro g hg
    rw [hent, List.mem_reverse]
    exact List.mem_map_of_mem _ hg
  · exact version_lt_retained_excluded limit gens hnd
  · intro g2 hg2
    refine ⟨?_, ?_, ?_⟩
    · intro hmem
      rw [mem_files_install_empty cfg limit gens hnd] at hmem
      obtain ⟨g, hg, hq⟩ := hmem
      rcases hq with hq | hq | hq
      · exact absurd (congrArg EspPath.kind hq) (by simp [stubPath, kernelPath])
      · exact absurd (congrArg EspPath.kind hq) (by simp [stubPath, initrdPath])
      · exact version_ne_retained_excluded limit gens hnd g hg g2 hg2
          (stubPath_version_eq hq).symm
    · intro hne hmem
      rw [mem_files_install_empty cfg limit gens hnd] at hmem
      obtain ⟨g, hg, hq⟩ := hmem
      rcases hq with hq | hq | hq
      · exact hne g hg (by simpa [kernelPath] using hq)
      · exact absurd (congrArg EspPath.kind hq) (by simp [kernelPath, initrdPath])
      · exact absurd (congrArg EspPath.kind hq) (by simp [kernelPath, stubPath])
    · intro hne hmem
      rw [mem_files_install_empty cfg limit gens hnd] at hmem
      obtain ⟨g, hg, hq⟩ := hmem
      rcases hq with hq | hq | hq
      · exact absurd (congrArg EspPath.kind hq) (by simp [initrdPath, kernelPath])
      · exact hne g hg (by simpa [initrdPath] using hq)
      · exact absurd (congrArg EspPath.kind hq) (by simp [initrdPath, stubPath])

/-- Witness for C1 at a concrete input: two generations, limit 1. -/
theorem install_retention_bound_check :
    ((([⟨1, [1], [2], ["a"]⟩, ⟨2, [3], [4], ["b"]⟩] :
        List Generation).map Generation.version).Nodup ∧
      1 < ([⟨1, [1], [2], ["a"]⟩, ⟨2, [3], [4], ["b"]⟩] :
        List Generation).length) ∧
    ((install ⟨[9], "x86_64-linux"⟩ 1
        [⟨1, [1], [2], ["a"]⟩, ⟨2, [3], [4], ["b"]⟩] .empty).entries.length = 1 ∧
      (∀ e ∈ (install ⟨[9], "x86_64-linux"⟩ 1
          [⟨1, [1], [2], ["a"]⟩, ⟨2, [3], [4], ["b"]⟩] .empty).entries,
        ∃ g ∈ retained 1 [⟨1, [1], [2], ["a"]⟩, ⟨2, [3], [4], ["b"]⟩],
          e = entryFor ⟨[9], "x86_64-linux"⟩ g) ∧
      (∀ g ∈ retained 1 [⟨1, [1], [2], ["a"]⟩, ⟨2, [3], [4], ["b"]⟩],
        entryFor ⟨[9], "x86_64-linux"⟩ g ∈ (install ⟨[9], "x86_64-linux"⟩ 1
          [⟨1, [1], [2], ["a"]⟩, ⟨2, [3], [4], ["b"]⟩] .empty).entries) ∧
      (∀ g ∈ retained 1 [⟨1, [1], [2], ["a"]⟩, ⟨2, [3], [4], ["b"]⟩],
        ∀ g2 ∈ excluded 1 [⟨1, [1], [2], ["a"]⟩, ⟨2, [3], [4], ["b"]⟩],
          g2.version < g.version) ∧
      (∀ g2 ∈ excluded 1 [⟨1, [1], [2], ["a"]⟩, ⟨2, [3], [4], ["b"]⟩],
        stubPath ⟨[9], "x86_64-linux"⟩ g2 ∉ (install ⟨[9], "x86_64-linux"⟩ 1
          [⟨1, [1], [2], ["a"]⟩, ⟨2, [3], [4], ["b"]⟩] .empty).files ∧
        ((∀ g ∈ retained 1 [⟨1, [1], [2], ["a"]⟩, ⟨2, [3], [4], ["b"]⟩],
            g2.kernel ≠ g.kernel) →
          kernelPath g2 ∉ (install ⟨[9], "x86_64-linux"⟩ 1
            [⟨1, [1], [2], ["a"]⟩, ⟨2, [3], [4], ["b"]⟩] .empty).files) ∧
        ((∀ g ∈ retained 1 [⟨1, [1], [2], ["a"]⟩, ⟨2, [3], [4], ["b"]⟩],
            g2.initrd ≠ g.initrd) →
          initrdPath g2 ∉ (install ⟨[9], "x86_64-linux"⟩ 1
            [⟨1, [1], [2], ["a"]⟩, ⟨2, [3], [4], ["b"]⟩] .empty).files))) :=
  ⟨⟨by decide, by decide⟩,
    install_retention_bound ⟨[9], "x86_64-linux"⟩ 1
      [⟨1, [1], [2], ["a"]⟩, ⟨2, [3], [4], ["b"]⟩] (by decide) (by decide)⟩

/-! ### Re-running the write phase over already-installed content -/

theorem writePhase_rewrite (cfg : Config) :
    ∀ (q : List Generation) (u : List LoaderEntry) (s : EspState),
      (q.map Generation.version).Nodup →
      (∀ e ∈ u, ∀ g ∈ q, e.version ≠ g.version) →
      (∀ g ∈ q, kernelPath g ∈ s.files ∧ initrdPath g ∈ s.files ∧
        stubPath cfg g ∈ s.files) →
      s.entries = u ++ (q.map (entryFor cfg)).reverse →
      applyAll s (writePhase cfg q) = ⟨s.files, (q.map (entryFor cfg)).reverse ++ u⟩ := by
  intro q
  induction q with
  | nil =>
      intro u s _ _ _ hent
      rw [writePhase_nil, applyAll_nil]
      cases s with
      | mk files entries =>
          simp only [List.map_nil, List.reverse_nil, List.nil_append, List.append_nil] at hent ⊢
          rw [hent]
  | cons g q' ih =>
      intro u s hnd hu hfiles hent
      have h' : (g.version :: q'.map Generation.version).Nodup := by simpa using hnd
      have hhead : g.version ∉ q'.map Generation.version := (List.nodup_cons.mp h').1
      have htail := (List.nodup_cons.mp h').2
      have hg := hfiles g (List.mem_cons_self g q')
      have h1 : applyAll s (genSteps cfg g) =
          applyStep s (.writeEntry (entryFor cfg g)) := by
        simp only [genSteps, applyAll, List.foldl_cons, List.foldl_nil]
        rw [putFile_noop s _ hg.1, putFile_noop s _ hg.2.1, putFile_noop s _ hg.2.2]
      have hfil : (s.entries.filter fun e2 => e2.version ≠ (entryFor cfg g).version) =
          u ++ (q'.map (entryFor cfg)).reverse := by
        rw [hent, List.map_cons, List.reverse_cons, List.filter_append, List.filter_append]
        have hfu : (u.filter fun e2 => e2.version ≠ (entryFor cfg g).version) = u :=
          List.filter_eq_self.mpr fun e he => by
            simpa using hu e he g (List.mem_cons_self g q')
        have hfq : ((q'.map (entryFor cfg)).reverse.filter
            fun e2 => e2.version ≠ (entryFor cfg g).version) =
              (q'.map (entryFor cfg)).reverse :=
          List.filter_eq_self.mpr fun e he => by
            rw [List.mem_reverse, List.mem_map] at he
            obtain ⟨g2, hg2, rfl⟩ := he
            simp only [entryFor, ne_eq, decide_eq_true_iff]
            exact fun hv => hhead (hv ▸ List.mem_map_of_mem _ hg2)
        have hfe : (([entryFor cfg g] : List LoaderEntry).filter
            fun e2 => e2.version ≠ (entryFor cfg g).version) = [] := by
          simp
        rw [hfu, hfq, hfe, List.append_nil]
      rw [writePhase_cons, applyAll_append, h1]
      have hentries : (applyStep s (.writeEntry (entryFor cfg g))).entries =
          (entryFor cfg g :: u) ++ (q'.map (entryFor cfg)).reverse := by
        rw [entries_writeEntry, hfil]
        rfl
      have hfiles2 : (applyStep s (.writeEntry (entryFor cfg g))).files = s.files :=
        files_writeEntry s _
      have := ih (entryFor cfg g :: u) (applyStep s (.writeEntry (entryFor cfg g)))
        htail
        (by
          intro e he g2 hg2
          rcases List.mem_cons.mp he with rfl | he2
          · show g.version ≠ g2.version
            exact fun hv => hhead (hv ▸ List.mem_map_of_mem _ hg2)
          · exact hu e he2 g2 (List.mem_cons_of_mem _ hg2))
        (by
          intro g2 hg2
          rw [hfiles2]
          exact hfiles g2 (List.mem_cons_of_mem _ hg2))
        hentries
      rw [this, hfiles2]
      simp [List.append_assoc]

theorem entries_versions_install_empty (cfg : Config) (limit : Nat)
    (gens : List Generation) (hnd : (gens.map Generation.version).Nodup) :
    ∀ e ∈ (install cfg limit gens .empty).entries,
      e.version ∈ (retained limit gens).map Generation.version := by
  intro e he
  rw [entries_install_empty cfg limit gens hnd, List.mem_reverse, List.mem_map] at he
  obtain ⟨g, hg, rfl⟩ := he
  exact List.mem_map_of_mem _ hg

theorem files_referenced_install_empty (cfg : Config) (limit : Nat)
    (gens : List Generation) (hnd : (gens.map Generation.version).Nodup) :
    ∀ p ∈ (install cfg limit gens .empty).files,
      referenced (install cfg limit gens .empty).entries p = true := by
  intro p hp
  rw [mem_files_install_empty cfg limit gens hnd] at hp
  obtain ⟨g, hg, hq⟩ := hp
  rw [referenced_iff]
  refine ⟨entryFor cfg g, ?_, ?_⟩
  · rw [entries_install_empty cfg limit gens hnd, List.mem_reverse]
    exact List.mem_map_of_mem _ hg
  · rcases hq with rfl | rfl | rfl
    · exact Or.inr (Or.inl rfl)
    · exact Or.inr (Or.inr rfl)
    · exact Or.inl rfl

theorem paths_mem_files_install_empty (cfg : Config) (limit : Nat)
    (gens : List Generation) (hnd : (gens.map Generation.version).Nodup) :
    ∀ g ∈ retained limit gens,
      kernelPath g ∈ (install cfg limit gens .empty).files ∧
      initrdPath g ∈ (install cfg limit gens .empty).files ∧
      stubPath cfg g ∈ (install cfg limit gens .empty).files := by
  intro g hg
  refine ⟨?_, ?_, ?_⟩ <;> rw [mem_files_install_empty cfg limit gens hnd]
  · exact ⟨g, hg, Or.inl rfl⟩
  · exact ⟨g, hg, Or.inr (Or.inl rfl)⟩
  · exact ⟨g, hg, Or.inr (Or.inr rfl)⟩

theorem buildGeneration_idem (cfg : Config) (g : Generation) (s : EspState) :
    buildGeneration cfg g (buildGeneration cfg g s) = buildGeneration cfg g s := by
  have hmem := mem_files_applyAll_genSteps cfg g s
  have hk : kernelPath g ∈ (buildGeneration cfg g s).files :=
    (hmem _).mpr (Or.inl rfl)
  have hi : initrdPath g ∈ (buildGeneration cfg g s).files :=
    (hmem _).mpr (Or.inr (Or.inl rfl))
  have hst : stubPath cfg g ∈ (buildGeneration cfg g s).files :=
    (hmem _).mpr (Or.inr (Or.inr (Or.inl rfl)))
  have h1 : buildGeneration cfg g (buildGeneration cfg g s) =
      applyStep (buildGeneration cfg g s) (.writeEntry (entryFor cfg g)) := by
    show applyAll _ (genSteps cfg g) = _
    simp only [genSteps, applyAll, List.foldl_cons, List.foldl_nil]
    rw [putFile_noop _ _ hk, putFile_noop _ _ hi, putFile_noop _ _ hst]
  rw [h1]
  have hent : (buildGeneration cfg g s).entries =
      entryFor cfg g :: (s.entries.filter fun e => e.version ≠ g.version) :=
    entries_applyAll_genSteps cfg g s
  have hent2 : (applyStep (buildGeneration cfg g s)
      (.writeEntry (entryFor cfg g))).entries = (buildGeneration cfg g s).entries := by
    rw [entries_writeEntry, hent]
    rw [List.filter_cons_of_neg (by simp [entryFor])]
    rw [List.filter_filter]
    congr 1
    apply List.filter_congr
    intro e _
    by_cases h1 : e.version = g.version <;> simp [h1, entryFor]
  have hfl : (applyStep (buildGeneration cfg g s)
      (.writeEntry (entryFor cfg g))).files = (buildGeneration cfg g s).files :=
    files_writeEntry _ _
  exact EspState.ext' hfl hent2

/-! ### Claim C3 -/

/-- C3: installing the same generation list twice (distinct versions) is
idempotent — the second `install` run over the state produced by the first
yields exactly the same ESP state (same files, same entries, nothing new) —
and `build_generation` run twice for the same generation over any state
equals a single run. -/
theorem install_build_idempotent (cfg : Config) (limit : Nat)
    (gens : List Generation) (hnd : (gens.map Generation.version).Nodup) :
    install cfg limit gens (install cfg limit gens .empty) =
      install cfg limit gens .empty ∧
    ∀ (g : Generation) (s : EspState),
      buildGeneration cfg g (buildGeneration cfg g s) = buildGeneration cfg g s := by
  refine ⟨?_, buildGeneration_idem cfg⟩
  set s1 := install cfg limit gens .empty with hs1
  have hr := nodup_versions_retained limit gens hnd
  have hwr : applyAll s1 (writePhase cfg (retained limit gens)) =
      ⟨s1.files, ((retained limit gens).map (entryFor cfg)).reverse⟩ := by
    have := writePhase_rewrite cfg (retained limit gens) [] s1 hr
      (by intro e he; cases he)
      (paths_mem_files_install_empty cfg limit gens hnd)
      (by
        rw [List.nil_append]
        exact entries_install_empty cfg limit gens hnd)
    simpa using this
  have hwr2 : applyAll s1 (writePhase cfg (retained limit gens)) = s1 := by
    rw [hwr, ← entries_install_empty cfg limit gens hnd]
  have hsteps : installSteps cfg limit gens s1 = writePhase cfg (retained limit gens) := by
    have hpe : pruneEntrySteps ((retained limit gens).map Generation.version)
        (applyAll s1 (writePhase cfg (retained limit gens))) = [] := by
      rw [hwr2]
      exact pruneEntrySteps_eq_nil _ _ (entries_versions_install_empty cfg limit gens hnd)
    have hpf : pruneFileSteps (applyAll (applyAll s1
        (writePhase cfg (retained limit gens))) []) = [] := by
      rw [applyAll_nil, hwr2]
      exact pruneFileSteps_eq_nil _ (files_referenced_install_empty cfg limit gens hnd)
    simp only [installSteps]
    rw [hpe]
    rw [hpf]
    simp
  rw [install, hsteps, hwr2]

/-- Witness for C3 at a concrete input. -/
theorem install_build_idempotent_check :
    (([⟨1, [5], [6], ["x"]⟩, ⟨2, [5], [6], ["x"]⟩] :
        List Generation).map Generation.version).Nodup ∧
    (install ⟨[3], "s"⟩ 1 [⟨1, [5], [6], ["x"]⟩, ⟨2, [5], [6], ["x"]⟩]
        (install ⟨[3], "s"⟩ 1 [⟨1, [5], [6], ["x"]⟩, ⟨2, [5], [6], ["x"]⟩] .empty) =
      install ⟨[3], "s"⟩ 1 [⟨1, [5], [6], ["x"]⟩, ⟨2, [5], [6], ["x"]⟩] .empty ∧
    ∀ (g : Generation) (s : EspState),
      buildGeneration ⟨[3], "s"⟩ g (buildGeneration ⟨[3], "s"⟩ g s) =
        buildGeneration ⟨[3], "s"⟩ g s) :=
  ⟨by decide,
    install_build_idempotent ⟨[3], "s"⟩ 1
      [⟨1, [5], [6], ["x"]⟩, ⟨2, [5], [6], ["x"]⟩] (by decide)⟩

/-! ### Step-by-step invariants along a run -/

/-- `along P s l` holds when the predicate `P` holds after every step of
executing `l` from `s` (the state observed at a simulated crash after each
step). -/
def along (P : EspState → Prop) : EspState → List Step → Prop
  | _, [] => True
  | s, st :: l => P (applyStep s st) ∧ along P (applyStep s st) l

theorem along_append (P : EspState → Prop) (a : List Step) :
    ∀ (b : List Step) (s : EspState),
      along P s (a ++ b) ↔ along P s a ∧ along P (applyAll s a) b := by
  induction a with
  | nil =>
      intro b s
      simp [along, applyAll_nil]
  | cons st a ih =>
      intro b s
      show (P (applyStep s st) ∧ along P (applyStep s st) (a ++ b)) ↔ _
      rw [ih b (applyStep s st)]
      show _ ↔ (P (applyStep s st) ∧ along P (applyStep s st) a) ∧
        along P (applyAll (applyStep s st) a) b
      tauto

theorem along_imp (P : EspState → Prop) (l : List Step) (s : EspState)
    (hP : P s) (hA : along P s l) :
    ∀ p q, l = p ++ q → P (applyAll s p) := by
  intro p q hl
  subst hl
  induction p generalizing s with
  | nil => exact hP
  | cons st p ih =>
      obtain ⟨h1, h2⟩ := hA
      exact ih (applyStep s st) h1 h2

/-! ### Per-step preservation of validity and entry versions -/

theorem validEsp_putFile (s : EspState) (p : EspPath) (h : validEsp s) :
    validEsp (applyStep s (.putFile p)) := by
  intro e he
  rw [entries_putFile] at he
  obtain ⟨h1, h2, h3⟩ := h e he
  exact ⟨files_subset_putFile s p h1, files_subset_putFile s p h2,
    files_subset_putFile s p h3⟩

theorem validEsp_writeEntry (s : EspState) (e : LoaderEntry) (h : validEsp s)
    (he : entryValid s.files e) : validEsp (applyStep s (.writeEntry e)) := by
  intro e2 he2
  rw [entries_writeEntry] at he2
  show entryValid s.files e2
  rcases List.mem_cons.mp he2 with rfl | h2
  · exact he
  · exact h e2 (List.mem_of_mem_filter h2)

theorem validEsp_removeEntry (s : EspState) (v : Nat) (h : validEsp s) :
    validEsp (applyStep s (.removeEntry v)) := by
  intro e he
  exact h e (List.mem_of_mem_filter he)

theorem validEsp_removeFile (s : EspState) (p : EspPath) (h : validEsp s)
    (hr : referenced s.entries p = false) :
    validEsp (applyStep s (.removeFile p)) := by
  intro e he
  rw [entries_removeFile] at he
  obtain ⟨h1, h2, h3⟩ := h e he
  have hnex : ¬ ∃ e2 ∈ s.entries, e2.stub = p ∨ e2.kernel = p ∨ e2.initrd = p := by
    rw [← referenced_iff]
    simp [hr]
  refine ⟨List.mem_filter.mpr ⟨h1, ?_⟩, List.mem_filter.mpr ⟨h2, ?_⟩,
    List.mem_filter.mpr ⟨h3, ?_⟩⟩
  · simpa using fun hq => hnex ⟨e, he, Or.inl hq⟩
  · simpa using fun hq => hnex ⟨e, he, Or.inr (Or.inl hq)⟩
  · simpa using fun hq => hnex ⟨e, he, Or.inr (Or.inr hq)⟩

theorem version_subset_writeEntry (s : EspState) (e : LoaderEntry) :
    s.entries.map LoaderEntry.version ⊆
      (applyStep s (.writeEntry e)).entries.map LoaderEntry.version := by
  intro x hx
  rw [entries_writeEntry, List.map_cons]
  rcases eq_or_ne x e.version with rfl | hne
  · exact List.mem_cons_self _ _
  · rw [List.mem_map] at hx
    obtain ⟨e2, he2, rfl⟩ := hx
    exact List.mem_cons_of_mem _
      (List.mem_map_of_mem _ (List.mem_filter.mpr ⟨he2, by simpa using hne⟩))

theorem version_subset_genSteps (cfg : Config) (g : Generation) (s : EspState) :
    s.entries.map LoaderEntry.version ⊆
      (applyAll s (genSteps cfg g)).entries.map LoaderEntry.version := by
  intro x hx
  rw [entries_applyAll_genSteps, List.map_cons]
  rcases eq_or_ne x g.version with rfl | hne
  · exact List.mem_cons_self _ _
  · rw [List.mem_map] at hx
    obtain ⟨e2, he2, rfl⟩ := hx
    exact List.mem_cons_of_mem _
      (List.mem_map_of_mem _ (List.mem_filter.mpr ⟨he2, by simpa using hne⟩))

theorem version_subset_writePhase (cfg : Config) :
    ∀ (gs : List Generation) (s : EspState),
      s.entries.map LoaderEntry.version ⊆
        (applyAll s (writePhase cfg gs)).entries.map LoaderEntry.version := by
  intro gs
  induction gs with
  | nil =>
      intro s
      rw [writePhase_nil, applyAll_nil]
      exact fun x hx => hx
  | cons g gs ih =>
      intro s
      rw [writePhase_cons, applyAll_append]
      exact fun x hx => ih _ (version_subset_genSteps cfg g s hx)

theorem version_mem_writePhase (cfg : Config) :
    ∀ (gs : List Generation) (s : EspState), ∀ g ∈ gs,
      g.version ∈ (applyAll s (writePhase cfg gs)).entries.map LoaderEntry.version := by
  intro gs
  induction gs with
  | nil =>
      intro s g hg
      cases hg
  | cons g' gs ih =>
      intro s g hg
      rw [writePhase_cons, applyAll_append]
      rcases List.mem_cons.mp hg with rfl | hg2
      · apply version_subset_writePhase cfg gs
        rw [entries_applyAll_genSteps, List.map_cons]
        exact List.mem_cons_self _ _
      · exact ih _ g hg2

/-! ### The install invariant and its preservation through each phase -/

/-- The property observed at every point of an `install` run: the ESP state
is valid (no dangling entry) and the set of entry versions contains either
all initially present versions (before pruning starts) or all retained
versions (once they are written, in particular through pruning). -/
def installInv (vs0 rv : List Nat) (s : EspState) : Prop :=
  validEsp s ∧
    (vs0 ⊆ s.entries.map LoaderEntry.version ∨
      rv ⊆ s.entries.map LoaderEntry.version)

theorem along_genSteps (cfg : Config) (vs0 rv : List Nat) (g : Generation)
    (s : EspState) (hv : validEsp s)
    (hs : vs0 ⊆ s.entries.map LoaderEntry.version) :
    along (installInv vs0 rv) s (genSteps cfg g) ∧
      validEsp (applyAll s (genSteps cfg g)) ∧
      vs0 ⊆ (applyAll s (genSteps cfg g)).entries.map LoaderEntry.version := by
  have hv1 : validEsp (applyStep s (.putFile (kernelPath g))) :=
    validEsp_putFile s _ hv
  have hv2 : validEsp (applyStep (applyStep s (.putFile (kernelPath g)))
      (.putFile (initrdPath g))) :=
    validEsp_putFile _ _ hv1
  have hv3 : validEsp (applyStep (applyStep (applyStep s (.putFile (kernelPath g)))
      (.putFile (initrdPath g))) (.putFile (stubPath cfg g))) :=
    validEsp_putFile _ _ hv2
  have he1 : (applyStep s (.putFile (kernelPath g))).entries = s.entries :=
    entries_putFile _ _
  have he2 : (applyStep (applyStep s (.putFile (kernelPath g)))
      (.putFile (initrdPath g))).entries = s.entries := by
    rw [entries_putFile, he1]
  have he3 : (applyStep (applyStep (applyStep s (.putFile (kernelPath g)))
      (.putFile (initrdPath g))) (.putFile (stubPath cfg g))).entries = s.entries := by
    rw [entries_putFile, he2]
  have hmemk : kernelPath g ∈ (applyStep (applyStep (applyStep s
      (.putFile (kernelPath g))) (.putFile (initrdPath g)))
      (.putFile (stubPath cfg g))).files :=
    files_subset_putFile _ _ (files_subset_putFile _ _ (self_mem_files_putFile s _))
  have hmemi : initrdPath g ∈ (applyStep (applyStep (applyStep s
      (.putFile (kernelPath g))) (.putFile (initrdPath g)))
      (.putFile (stubPath cfg g))).files :=
    files_subset_putFile _ _ (self_mem_files_putFile _ _)
  have hmems : stubPath cfg g ∈ (applyStep (applyStep (applyStep s
      (.putFile (kernelPath g))) (.putFile (initrdPath g)))
      (.putFile (stubPath cfg g))).files :=
    self_mem_files_putFile _ _
  have hev : entryValid (applyStep (applyStep (applyStep s
      (.putFile (kernelPath g))) (.putFile (initrdPath g)))
      (.putFile (stubPath cfg g))).files (entryFor cfg g) :=
    ⟨hmems, hmemk, hmemi⟩
  have hv4 : validEsp (applyStep (applyStep (applyStep (applyStep s
      (.putFile (kernelPath g))) (.putFile (initrdPath g)))
      (.putFile (stubPath cfg g))) (.writeEntry (entryFor cfg g))) :=
    validEsp_writeEntry _ _ hv3 hev
  have hvs4 : vs0 ⊆ (applyStep (applyStep (applyStep (applyStep s
      (.putFile (kernelPath g))) (.putFile (initrdPath g)))
      (.putFile (stubPath cfg g))) (.writeEntry (entryFor cfg g))).entries.map
        LoaderEntry.version := by
    refine fun x hx => version_subset_writeEntry _ _ ?_
    rw [he3]
    exact hs hx
  refine ⟨⟨⟨hv1, Or.inl (he1 ▸ hs)⟩, ⟨hv2, Or.inl (he2 ▸ hs)⟩,
    ⟨hv3, Or.inl (he3 ▸ hs)⟩, ⟨hv4, Or.inl hvs4⟩, trivial⟩, hv4, hvs4⟩

theorem along_write (cfg : Config) (vs0 rv : List Nat) :
    ∀ (gs : List Generation) (s : EspState), validEsp s →
      vs0 ⊆ s.entries.map LoaderEntry.version →
      along (installInv vs0 rv) s (writePhase cfg gs) := by
  intro gs
  induction gs with
  | nil =>
      intro s _ _
      rw [writePhase_nil]
      trivial
  | cons g gs ih =>
      intro s hv hs
      rw [writePhase_cons]
      obtain ⟨ha, hv4, hvs4⟩ := along_genSteps cfg vs0 rv g s hv hs
      exact (along_append _ _ _ _).mpr ⟨ha, ih _ hv4 hvs4⟩

theorem version_subset_removeEntry (s : EspState) (v : Nat) (rv : List Nat)
    (hv : v ∉ rv) (h : rv ⊆ s.entries.map LoaderEntry.version) :
    rv ⊆ (applyStep s (.removeEntry v)).entries.map LoaderEntry.version := by
  intro x hx
  have hx2 := h hx
  rw [List.mem_map] at hx2
  obtain ⟨e2, he2, rfl⟩ := hx2
  refine List.mem_map_of_mem _ (List.mem_filter.mpr ⟨he2, ?_⟩)
  simpa using fun (hvv : e2.version = v) => hv (hvv ▸ hx)

theorem along_removeEntries (vs0 rv : List Nat) :
    ∀ (l : List LoaderEntry) (s : EspState), validEsp s →
      rv ⊆ s.entries.map LoaderEntry.version →
      (∀ e ∈ l, e.version ∉ rv) →
      along (installInv vs0 rv) s (l.map fun e => Step.removeEntry e.version) ∧
        validEsp (applyAll s (l.map fun e => Step.removeEntry e.version)) ∧
        rv ⊆ (applyAll s
          (l.map fun e => Step.removeEntry e.version)).entries.map LoaderEntry.version := by
  intro l
  induction l with
  | nil =>
      intro s hv hs _
      exact ⟨trivial, hv, hs⟩
  | cons e l ih =>
      intro s hv hs hl
      have hv1 : validEsp (applyStep s (.removeEntry e.version)) :=
        validEsp_removeEntry s _ hv
      have hs1 : rv ⊆ (applyStep s (.removeEntry e.version)).entries.map
          LoaderEntry.version :=
        version_subset_removeEntry s _ rv (hl e (List.mem_cons_self e l)) hs
      obtain ⟨ha, hv2, hs2⟩ := ih (applyStep s (.removeEntry e.version)) hv1 hs1
        fun e2 he2 => hl e2 (List.mem_cons_of_mem _ he2)
      exact ⟨⟨⟨hv1, Or.inr hs1⟩, ha⟩, hv2, hs2⟩

theorem along_removeFiles (vs0 rv : List Nat) :
    ∀ (l : List EspPath) (s : EspState), validEsp s →
      rv ⊆ s.entries.map LoaderEntry.version →
      (∀ p ∈ l, referenced s.entries p = false) →
      along (installInv vs0 rv) s (l.map Step.removeFile) := by
  intro l
  induction l with
  | nil =>
      intro s _ _ _
      trivial
  | cons p l ih =>
      intro s hv hs hl
      have hent : (applyStep s (.removeFile p)).entries = s.entries :=
        entries_removeFile s p
      have hv1 : validEsp (applyStep s (.removeFile p)) :=
        validEsp_removeFile s p hv (hl p (List.mem_cons_self p l))
      refine ⟨⟨hv1, Or.inr (hent ▸ hs)⟩, ih _ hv1 (hent ▸ hs) ?_⟩
      intro p2 hp2
      rw [hent]
      exact hl p2 (List.mem_cons_of_mem _ hp2)

/-! ### Claim C2 -/

/-- C2: write-before-prune.  During every `install` run from a valid initial
ESP state, at every observable intermediate point (the state after any prefix
of the run's steps, i.e. after a simulated crash at any step), no loader
entry on disk references a missing artifact, and the set of entry versions
never shrinks below the intended final set: it always still contains either
all initially-present versions (during the write phase, which precedes all
pruning) or all retained generations' versions (from the moment they have all
been written, through both pruning phases). -/
theorem install_write_before_prune (cfg : Config) (limit : Nat)
    (gens : List Generation) (s0 : EspState) (h0 : validEsp s0) :
    ∀ p q, installSteps cfg limit gens s0 = p ++ q →
      validEsp (applyAll s0 p) ∧
        (s0.entries.map LoaderEntry.version ⊆
            (applyAll s0 p).entries.map LoaderEntry.version ∨
          (retained limit gens).map Generation.version ⊆
            (applyAll s0 p).entries.map LoaderEntry.version) := by
  set vs0 := s0.entries.map LoaderEntry.version with hvs0
  set rv := (retained limit gens).map Generation.version with hrv
  set w := writePhase cfg (retained limit gens) with hw
  set s1 := applyAll s0 w with hs1
  set pe := pruneEntrySteps rv s1 with hpe
  set s2 := applyAll s1 pe with hs2
  have hsteps : installSteps cfg limit gens s0 = (w ++ pe) ++ pruneFileSteps s2 := by
    simp only [installSteps]
  have hP0 : installInv vs0 rv s0 := ⟨h0, Or.inl fun x hx => hx⟩
  have halongW : along (installInv vs0 rv) s0 w :=
    along_write cfg vs0 rv (retained limit gens) s0 h0 fun x hx => hx
  have hv1 : validEsp s1 :=
    (along_imp _ w s0 hP0 halongW w [] (List.append_nil w).symm).1
  have hrv1 : rv ⊆ s1.entries.map LoaderEntry.version := by
    intro x hx
    rw [hrv, List.mem_map] at hx
    obtain ⟨g, hg, rfl⟩ := hx
    exact version_mem_writePhase cfg _ s0 g hg
  have hpemap : pe = (s1.entries.filter fun e => e.version ∉ rv).map
      fun e => Step.removeEntry e.version := by
    rw [hpe]
    rfl
  obtain ⟨halongPE, hv2, hrv2⟩ := along_removeEntries vs0 rv
    (s1.entries.filter fun e => e.version ∉ rv) s1 hv1 hrv1
    (fun e he => by simpa using (List.mem_filter.mp he).2)
  rw [← hpemap] at halongPE hv2 hrv2
  have halongPF : along (installInv vs0 rv) s2 (pruneFileSteps s2) := by
    have := along_removeFiles vs0 rv
      (s2.files.filter fun p => ¬ referenced s2.entries p) s2 hv2 hrv2
      (fun p hp => by simpa using (List.mem_filter.mp hp).2)
    simpa [pruneFileSteps] using this
  have halong : along (installInv vs0 rv) s0 (installSteps cfg limit gens s0) := by
    rw [hsteps]
    refine (along_append _ _ _ _).mpr ⟨(along_append _ _ _ _).mpr ⟨halongW, ?_⟩, ?_⟩
    · rw [← hs1]
      exact halongPE
    · rw [applyAll_append, ← hs1, ← hs2]
      exact halongPF
  intro p q hpq
  exact along_imp _ _ s0 hP0 halong p q hpq

/-- Witness for C2 at a concrete input: a valid initial state with a stale
entry, observed two steps into the run. -/
theorem install_write_before_prune_check :
    validEsp .empty ∧
      (validEsp (applyAll .empty
          ((installSteps ⟨[2], "s"⟩ 1 [⟨1, [5], [6], ["x"]⟩] .empty).take 2)) ∧
        (EspState.empty.entries.map LoaderEntry.version ⊆
            (applyAll .empty ((installSteps ⟨[2], "s"⟩ 1
              [⟨1, [5], [6], ["x"]⟩] .empty).take 2)).entries.map LoaderEntry.version ∨
          (retained 1 [⟨1, [5], [6], ["x"]⟩]).map Generation.version ⊆
            (applyAll .empty ((installSteps ⟨[2], "s"⟩ 1
              [⟨1, [5], [6], ["x"]⟩] .empty).take 2)).entries.map LoaderEntry.version)) :=
  ⟨by decide,
    install_write_before_prune ⟨[2], "s"⟩ 1 [⟨1, [5], [6], ["x"]⟩] .empty (by decide)
      ((installSteps ⟨[2], "s"⟩ 1 [⟨1, [5], [6], ["x"]⟩] .empty).take 2)
      ((installSteps ⟨[2], "s"⟩ 1 [⟨1, [5], [6], ["x"]⟩] .empty).drop 2)
      (List.take_append_drop 2 _).symm⟩

/-! ### Claim C4 -/

/-- C4: stub building is deterministic — two runs of the stub builder with
identical inputs (same kernel, initrd, cmdline, generation version, platform
string, and template) produce byte-identical unsigned stubs. -/
theorem buildStub_deterministic (t1 t2 : List Nat) (s1 s2 : String)
    (g1 g2 : Generation) (ht : t1 = t2) (hs : s1 = s2)
    (hk : g1.kernel = g2.kernel) (hi : g1.initrd = g2.initrd)
    (hc : g1.cmdline = g2.cmdline) (hv : g1.version = g2.version) :
    buildStub t1 s1 g1 = buildStub t2 s2 g2 := by
  cases g1
  cases g2
  simp only at hk hi hc hv
  subst ht hs hk hi hc hv
  rfl

/-- Witness for C4 at a concrete input. -/
theorem buildStub_deterministic_check :
    (([1, 2] : List Nat) = [1, 2] ∧ "x86_64-linux" = "x86_64-linux" ∧
      (⟨7, [8], [9], ["root=/dev/sda"]⟩ : Generation).kernel =
        (⟨7, [8], [9], ["root=/dev/sda"]⟩ : Generation).kernel ∧
      (⟨7, [8], [9], ["root=/dev/sda"]⟩ : Generation).initrd =
        (⟨7, [8], [9], ["root=/dev/sda"]⟩ : Generation).initrd ∧
      (⟨7, [8], [9], ["root=/dev/sda"]⟩ : Generation).cmdline =
        (⟨7, [8], [9], ["root=/dev/sda"]⟩ : Generation).cmdline ∧
      (⟨7, [8], [9], ["root=/dev/sda"]⟩ : Generation).version =
        (⟨7, [8], [9], ["root=/dev/sda"]⟩ : Generation).version) ∧
    buildStub [1, 2] "x86_64-linux" ⟨7, [8], [9], ["root=/dev/sda"]⟩ =
      buildStub [1, 2] "x86_64-linux" ⟨7, [8], [9], ["root=/dev/sda"]⟩ :=
  ⟨⟨rfl, rfl, rfl, rfl, rfl, rfl⟩,
    buildStub_deterministic [1, 2] [1, 2] "x86_64-linux" "x86_64-linux"
      ⟨7, [8], [9], ["root=/dev/sda"]⟩ ⟨7, [8], [9], ["root=/dev/sda"]⟩
      rfl rfl rfl rfl rfl rfl⟩

/-! ### Claim C5 -/

/-- C5: content dedup.  The Content Store's `put` is a no-op whenever a file
already exists at the content-derived path, and installing two generations
(distinct versions, both within the limit) whose kernel (resp. initrd) bytes
are identical stores exactly one copy of that artifact on the ESP: the two
generations' content-addressed paths coincide and the final ESP holds the
file exactly once. -/
theorem content_dedup (cfg : Config) (limit : Nat) (g1 g2 : Generation)
    (hv : g1.version ≠ g2.version) (hlim : 2 ≤ limit) :
    (g1.kernel = g2.kernel →
      kernelPath g2 = kernelPath g1 ∧
        (install cfg limit [g1, g2] .empty).files.count (kernelPath g1) = 1) ∧
    (g1.initrd = g2.initrd →
      initrdPath g2 = initrdPath g1 ∧
        (install cfg limit [g1, g2] .empty).files.count (initrdPath g1) = 1) ∧
    (∀ (s : EspState) (p : EspPath), p ∈ s.files → applyStep s (.putFile p) = s) := by
  have hnd : (([g1, g2] : List Generation).map Generation.version).Nodup := by
    simp [hv]
  have hret : retained limit [g1, g2] = sortDesc [g1, g2] := by
    rw [retained]
    exact List.take_of_length_le (by rw [length_sortDesc]; simpa using hlim)
  have hg1 : g1 ∈ retained limit [g1, g2] := by
    rw [hret, (sortDesc_perm [g1, g2]).mem_iff]
    exact List.mem_cons_self _ _
  have hnodupf : (install cfg limit [g1, g2] .empty).files.Nodup := by
    rw [install]
    exact files_nodup_applyAll _ _ (by simp [EspState.empty])
  refine ⟨?_, ?_, fun s p hp => putFile_noop s p hp⟩
  · intro hk
    refine ⟨by simp [kernelPath, hk], ?_⟩
    refine List.count_eq_one_of_mem hnodupf ?_
    rw [mem_files_install_empty cfg limit [g1, g2] hnd]
    exact ⟨g1, hg1, Or.inl rfl⟩
  · intro hi
    refine ⟨by simp [initrdPath, hi], ?_⟩
    refine List.count_eq_one_of_mem hnodupf ?_
    rw [mem_files_install_empty cfg limit [g1, g2] hnd]
    exact ⟨g1, hg1, Or.inr (Or.inl rfl)⟩

/-- Witness for C5 at a concrete input: two generations sharing kernel and
initrd bytes. -/
theorem content_dedup_check :
    ((⟨1, [7], [8], ["a"]⟩ : Generation).version ≠
        (⟨2, [7], [8], ["b"]⟩ : Generation).version ∧ 2 ≤ 2) ∧
    (((⟨1, [7], [8], ["a"]⟩ : Generation).kernel =
        (⟨2, [7], [8], ["b"]⟩ : Generation).kernel →
      kernelPath ⟨2, [7], [8], ["b"]⟩ = kernelPath ⟨1, [7], [8], ["a"]⟩ ∧
        (install ⟨[4], "s"⟩ 2 [⟨1, [7], [8], ["a"]⟩, ⟨2, [7], [8], ["b"]⟩]
          .empty).files.count (kernelPath ⟨1, [7], [8], ["a"]⟩) = 1) ∧
    ((⟨1, [7], [8], ["a"]⟩ : Generation).initrd =
        (⟨2, [7], [8], ["b"]⟩ : Generation).initrd →
      initrdPath ⟨2, [7], [8], ["b"]⟩ = initrdPath ⟨1, [7], [8], ["a"]⟩ ∧
        (install ⟨[4], "s"⟩ 2 [⟨1, [7], [8], ["a"]⟩, ⟨2, [7], [8], ["b"]⟩]
          .empty).files.count (initrdPath ⟨1, [7], [8], ["a"]⟩) = 1) ∧
    (∀ (s : EspState) (p : EspPath), p ∈ s.files → applyStep s (.putFile p) = s)) :=
  ⟨⟨by decide, by decide⟩,
    content_dedup ⟨[4], "s"⟩ 2 ⟨1, [7], [8], ["a"]⟩ ⟨2, [7], [8], ["b"]⟩
      (by decide) (by decide)⟩

/-! ### Claim C9 -/

/-- C9: the single-generation scenario.  Installing one generation (kernel
`[75]`, initrd `[73]`, cmdline `console=ttyS0`, version 1) with retention
limit 1 through the CLI succeeds and produces exactly 1 signed stub file,
exactly 1 stored kernel, exactly 1 stored initrd (hence exactly 2
content-addressed kernel/initrd files), and exactly 1 loader entry. -/
theorem install_single_generation_scenario :
    (installCli ⟨some "stub"⟩
        ⟨"x86_64-linux", "sd", "cfg", "pcr", some "pub", some "priv", some 1, "esp",
          [⟨1, [75], [73], ["console=ttyS0"]⟩]⟩ .empty).outcome = .success ∧
    ((installCli ⟨some "stub"⟩
        ⟨"x86_64-linux", "sd", "cfg", "pcr", some "pub", some "priv", some 1, "esp",
          [⟨1, [75], [73], ["console=ttyS0"]⟩]⟩ .empty).state.files.filter
            fun p => p.kind = ArtifactKind.stub).length = 1 ∧
    ((installCli ⟨some "stub"⟩
        ⟨"x86_64-linux", "sd", "cfg", "pcr", some "pub", some "priv", some 1, "esp",
          [⟨1, [75], [73], ["console=ttyS0"]⟩]⟩ .empty).state.files.filter
            fun p => p.kind = ArtifactKind.kernel).length = 1 ∧
    ((installCli ⟨some "stub"⟩
        ⟨"x86_64-linux", "sd", "cfg", "pcr", some "pub", some "priv", some 1, "esp",
          [⟨1, [75], [73], ["console=ttyS0"]⟩]⟩ .empty).state.files.filter
            fun p => p.kind = ArtifactKind.initrd).length = 1 ∧
    ((installCli ⟨some "stub"⟩
        ⟨"x86_64-linux", "sd", "cfg", "pcr", some "pub", some "priv", some 1, "esp",
          [⟨1, [75], [73], ["console=ttyS0"]⟩]⟩ .empty).state.files.filter
            fun p => p.kind ≠ ArtifactKind.stub).length = 2 ∧
    (installCli ⟨some "stub"⟩
        ⟨"x86_64-linux", "sd", "cfg", "pcr", some "pub", some "priv", some 1, "esp",
          [⟨1, [75], [73], ["console=ttyS0"]⟩]⟩ .empty).state.entries.length = 1 := by
  decide

/-! ### Claim C6 -/

/-- C6: for both `build` and `install`, when the `LANZABOOTE_STUB`
environment variable is unset the subcommand fails with the fatal startup
error before constructing the installer and before any filesystem write: the
outcome is the env-read failure, the action trace contains no installer
construction and no filesystem write, and the ESP state is untouched. -/
theorem missing_stub_env_fatal (env : Env) (henv : env.lanzabooteStub = none)
    (bargs : BuildArgs) (iargs : InstallArgs) (s0 : EspState) :
    ((buildCli env bargs s0).outcome =
        .failure "Failed to read LANZABOOTE_STUB env variable" ∧
      Action.constructInstaller ∉ (buildCli env bargs s0).actions ∧
      (∀ st, Action.fsWrite st ∉ (buildCli env bargs s0).actions) ∧
      (buildCli env bargs s0).state = s0) ∧
    ((installCli env iargs s0).outcome =
        .failure "Failed to read LANZABOOTE_STUB env variable" ∧
      Action.constructInstaller ∉ (installCli env iargs s0).actions ∧
      (∀ st, Action.fsWrite st ∉ (installCli env iargs s0).actions) ∧
      (installCli env iargs s0).state = s0) := by
  simp [buildCli, installCli, henv]

/-- Witness for C6 at a concrete input. -/
theorem missing_stub_env_fatal_check :
    (⟨none⟩ : Env).lanzabooteStub = none ∧
    (((buildCli ⟨none⟩ ⟨"s", none, none, some "pub", some "priv", "esp",
          some ⟨1, [2], [3], ["a"]⟩⟩ .empty).outcome =
        .failure "Failed to read LANZABOOTE_STUB env variable" ∧
      Action.constructInstaller ∉ (buildCli ⟨none⟩ ⟨"s", none, none, some "pub",
          some "priv", "esp", some ⟨1, [2], [3], ["a"]⟩⟩ .empty).actions ∧
      (∀ st, Action.fsWrite st ∉ (buildCli ⟨none⟩ ⟨"s", none, none, some "pub",
          some "priv", "esp", some ⟨1, [2], [3], ["a"]⟩⟩ .empty).actions) ∧
      (buildCli ⟨none⟩ ⟨"s", none, none, some "pub", some "priv", "esp",
          some ⟨1, [2], [3], ["a"]⟩⟩ .empty).state = .empty) ∧
    ((installCli ⟨none⟩ ⟨"s", "sd", "cfg", "pcr", some "pub", some "priv",
          none, "esp", []⟩ .empty).outcome =
        .failure "Failed to read LANZABOOTE_STUB env variable" ∧
      Action.constructInstaller ∉ (installCli ⟨none⟩ ⟨"s", "sd", "cfg", "pcr",
          some "pub", some "priv", none, "esp", []⟩ .empty).actions ∧
      (∀ st, Action.fsWrite st ∉ (installCli ⟨none⟩ ⟨"s", "sd", "cfg", "pcr",
          some "pub", some "priv", none, "esp", []⟩ .empty).actions) ∧
      (installCli ⟨none⟩ ⟨"s", "sd", "cfg", "pcr", some "pub", some "priv",
          none, "esp", []⟩ .empty).state = .empty)) :=
  ⟨rfl,
    missing_stub_env_fatal ⟨none⟩ rfl
      ⟨"s", none, none, some "pub", some "priv", "esp", some ⟨1, [2], [3], ["a"]⟩⟩
      ⟨"s", "sd", "cfg", "pcr", some "pub", some "priv", none, "esp", []⟩ .empty⟩

/-! ### Claim C7 -/

/-- C7 counterexample: with `LANZABOOTE_STUB` set but the public-key path
absent, `build` does not fail with a reported `CredentialUnavailable` error —
it panics via `Option::expect` with "Failed to obtain public key" (an
uncontrolled crash, not an error returned to `Cli::call`). -/
theorem missing_key_not_reported :
    (buildCli ⟨some "stub"⟩ ⟨"x86_64-linux", none, none, none, some "priv", "esp",
        some ⟨1, [2], [3], ["a"]⟩⟩ .empty).outcome =
      .panicked "Failed to obtain public key" ∧
    (buildCli ⟨some "stub"⟩ ⟨"x86_64-linux", none, none, none, some "priv", "esp",
        some ⟨1, [2], [3], ["a"]⟩⟩ .empty).outcome.isReportedFailure = false := by
  decide

/-- C7 (amended): when `LANZABOOTE_STUB` is set and the public-key (resp.
private-key) path is not supplied, both `build` and `install` terminate with
a Rust panic from `Option::expect` — "Failed to obtain public key" (checked
first) or "Failed to obtain private key" — an uncontrolled crash that is
never a reported subcommand failure. -/
theorem missing_key_panics (env : Env) (stub : String)
    (henv : env.lanzabooteStub = some stub) (bargs : BuildArgs)
    (iargs : InstallArgs) (s0 : EspState) :
    (bargs.publicKey = none →
      (buildCli env bargs s0).outcome = .panicked "Failed to obtain public key") ∧
    (bargs.publicKey ≠ none → bargs.privateKey = none →
      (buildCli env bargs s0).outcome = .panicked "Failed to obtain private key") ∧
    (iargs.publicKey = none →
      (installCli env iargs s0).outcome = .panicked "Failed to obtain public key") ∧
    (iargs.publicKey ≠ none → iargs.privateKey = none →
      (installCli env iargs s0).outcome = .panicked "Failed to obtain private key") ∧
    (∀ m, (Outcome.panicked m).isReportedFailure = false) := by
  refine ⟨?_, ?_, ?_, ?_, fun m => rfl⟩
  · intro hpub
    simp [buildCli, henv, hpub]
  · intro hpub hpriv
    obtain ⟨pub, hpub2⟩ := Option.ne_none_iff_exists'.mp hpub
    simp [buildCli, henv, hpub2, hpriv]
  · intro hpub
    simp [installCli, henv, hpub]
  · intro hpub hpriv
    obtain ⟨pub, hpub2⟩ := Option.ne_none_iff_exists'.mp hpub
    simp [installCli, henv, hpub2, hpriv]

/-- Witness for C7's amended theorem at a concrete input. -/
theorem missing_key_panics_check :
    (⟨some "stub"⟩ : Env).lanzabooteStub = some "stub" ∧
    (((⟨"s", none, none, none, some "priv", "esp", none⟩ : BuildArgs).publicKey = none →
      (buildCli ⟨some "stub"⟩ ⟨"s", none, none, none, some "priv", "esp", none⟩
          .empty).outcome = .panicked "Failed to obtain public key") ∧
    ((⟨"s", none, none, none, some "priv", "esp", none⟩ : BuildArgs).publicKey ≠ none →
      (⟨"s", none, none, none, some "priv", "esp", none⟩ : BuildArgs).privateKey = none →
      (buildCli ⟨some "stub"⟩ ⟨"s", none, none, none, some "priv", "esp", none⟩
          .empty).outcome = .panicked "Failed to obtain private key") ∧
    ((⟨"s", "sd", "cfg", "pcr", some "pub", none, none, "esp", []⟩ :
        InstallArgs).publicKey = none →
      (installCli ⟨some "stub"⟩ ⟨"s", "sd", "cfg", "pcr", some "pub", none, none,
          "esp", []⟩ .empty).outcome = .panicked "Failed to obtain public key") ∧
    ((⟨"s", "sd", "cfg", "pcr", some "pub", none, none, "esp", []⟩ :
        InstallArgs).publicKey ≠ none →
      (⟨"s", "sd", "cfg", "pcr", some "pub", none, none, "esp", []⟩ :
        InstallArgs).privateKey = none →
      (installCli ⟨some "stub"⟩ ⟨"s", "sd", "cfg", "pcr", some "pub", none, none,
          "esp", []⟩ .empty).outcome = .panicked "Failed to obtain private key") ∧
    (∀ m, (Outcome.panicked m).isReportedFailure = false)) :=
  ⟨rfl,
    missing_key_panics ⟨some "stub"⟩ "stub" rfl
      ⟨"s", none, none, none, some "priv", "esp", none⟩
      ⟨"s", "sd", "cfg", "pcr", some "pub", none, none, "esp", []⟩ .empty⟩

/-! ### Claim C8 -/

/-- C8: `Cli::call` error reporting.  Whenever the subcommand returns an
error, the process logs exactly that error and exits with the non-zero status
1; whenever the subcommand succeeds, nothing is logged as an error and
`exit` is not invoked — there is no silent success after a failure. -/
theorem cli_error_reporting (env : Env) (c : Commands) (s0 : EspState) :
    (∀ e, (Commands.call env c s0).outcome = .failure e →
      cliRun env c s0 = ⟨some e, some 1⟩ ∧ (1 : Nat) ≠ 0) ∧
    ((Commands.call env c s0).outcome = .success →
      cliRun env c s0 = ⟨none, none⟩) := by
  constructor
  · intro e he
    unfold cliRun
    rw [he]
    exact ⟨rfl, by decide⟩
  · intro hs
    unfold cliRun
    rw [hs]
    rfl

/-- Witness for C8 at concrete inputs: a failing `build` invocation (env var
unset) and a succeeding `install` invocation. -/
theorem cli_error_reporting_check :
    ((Commands.call ⟨none⟩ (.build ⟨"s", none, none, some "pub", some "priv",
          "esp", none⟩) .empty).outcome =
        .failure "Failed to read LANZABOOTE_STUB env variable" ∧
      cliRun ⟨none⟩ (.build ⟨"s", none, none, some "pub", some "priv",
          "esp", none⟩) .empty =
        ⟨some "Failed to read LANZABOOTE_STUB env variable", some 1⟩) ∧
    ((Commands.call ⟨some "stub"⟩ (.install ⟨"x86_64-linux", "sd", "cfg", "pcr",
          some "pub", some "priv", none, "esp", []⟩) .empty).outcome = .success ∧
      cliRun ⟨some "stub"⟩ (.install ⟨"x86_64-linux", "sd", "cfg", "pcr",
          some "pub", some "priv", none, "esp", []⟩) .empty = ⟨none, none⟩) :=
  ⟨⟨by decide,
      ((cli_error_reporting ⟨none⟩ (.build ⟨"s", none, none, some "pub",
          some "priv", "esp", none⟩) .empty).1
        "Failed to read LANZABOOTE_STUB env variable" (by decide)).1⟩,
    ⟨by decide,
      (cli_error_reporting ⟨some "stub"⟩ (.install ⟨"x86_64-linux", "sd", "cfg",
          "pcr", some "pub", some "priv", none, "esp", []⟩) .empty).2 (by decide)⟩⟩

/-! ### Claim C10 -/

/-- C10: when `--configuration-limit` is absent from the `install` command
line, clap's `default_value_t = 1` applies: the effective limit is 1, the
installer runs with limit 1, and (for distinct-version, non-empty generation
lists installed into an empty ESP) exactly one loader entry remains — the one
of the highest-versioned generation. -/
theorem default_configuration_limit (env : Env) (stub : String)
    (henv : env.lanzabooteStub = some stub) (args : InstallArgs)
    (hnone : args.configurationLimit = none) (pub priv : String)
    (hpub : args.publicKey = some pub) (hpriv : args.privateKey = some priv)
    (arch : Architecture)
    (harch : Architecture.fromNixosSystem args.system = .ok arch) :
    args.effectiveConfigurationLimit = 1 ∧
    (installCli env args .empty).outcome = .success ∧
    (installCli env args .empty).state =
      install (cliConfig stub args.system) 1 args.generations .empty ∧
    ((args.generations.map Generation.version).Nodup → args.generations ≠ [] →
      (installCli env args .empty).state.entries.length = 1 ∧
      ∀ e ∈ (installCli env args .empty).state.entries,
        ∀ g ∈ args.generations, g.version ≤ e.version) := by
  have hlim : args.effectiveConfigurationLimit = 1 := by
    simp [InstallArgs.effectiveConfigurationLimit, hnone]
  have hrun : installCli env args .empty =
      ⟨.success,
        [.readEnvVar "LANZABOOTE_STUB", .constructSigner, .constructInstaller] ++
          (installSteps (cliConfig stub args.system) args.effectiveConfigurationLimit
            args.generations .empty).map .fsWrite,
        install (cliConfig stub args.system) args.effectiveConfigurationLimit
          args.generations .empty⟩ := by
    simp [installCli, henv, hpub, hpriv, harch]
  rw [hrun, hlim]
  refine ⟨rfl, rfl, rfl, ?_⟩
  intro hnd hne
  have hlen1 : 1 ≤ args.generations.length :=
    List.length_pos.mpr hne
  constructor
  · show (install (cliConfig stub args.system) 1 args.generations .empty).entries.length = 1
    rw [entries_install_empty _ 1 args.generations hnd]
    simp [length_retained 1 args.generations hlen1]
  · intro e he g hg
    rw [entries_install_empty _ 1 args.generations hnd, List.mem_reverse,
      List.mem_map] at he
    obtain ⟨g0, hg0, rfl⟩ := he
    have hsd : g0 ∈ (sortDesc args.generations).take 1 := hg0
    have hmemg : g ∈ sortDesc args.generations :=
      (sortDesc_perm args.generations).mem_iff.mpr hg
    cases hsort : sortDesc args.generations with
    | nil =>
        rw [hsort] at hmemg
        cases hmemg
    | cons ghead gtail =>
        rw [hsort] at hsd hmemg
        simp only [List.take_succ_cons, List.take_zero, List.mem_singleton] at hsd
        subst hsd
        show g.version ≤ (entryFor _ g0).version
        have hver : (entryFor (cliConfig stub args.system) g0).version = g0.version := rfl
        rw [hver]
        rcases List.mem_cons.mp hmemg with rfl | htl
        · exact Nat.le_refl _
        · have hp := sortDesc_sorted args.generations
          rw [hsort, List.pairwise_cons] at hp
          exact hp.1 g htl

/-- Witness for C10 at a concrete input. -/
theorem default_configuration_limit_check :
    ((⟨some "stub"⟩ : Env).lanzabooteStub = some "stub" ∧
      (⟨"x86_64-linux", "sd", "cfg", "pcr", some "pub", some "priv", none, "esp",
        [⟨1, [2], [3], ["a"]⟩, ⟨2, [4], [5], ["b"]⟩]⟩ :
          InstallArgs).configurationLimit = none ∧
      (⟨"x86_64-linux", "sd", "cfg", "pcr", some "pub", some "priv", none, "esp",
        [⟨1, [2], [3], ["a"]⟩, ⟨2, [4], [5], ["b"]⟩]⟩ :
          InstallArgs).publicKey = some "pub" ∧
      (⟨"x86_64-linux", "sd", "cfg", "pcr", some "pub", some "priv", none, "esp",
        [⟨1, [2], [3], ["a"]⟩, ⟨2, [4], [5], ["b"]⟩]⟩ :
          InstallArgs).privateKey = some "priv" ∧
      Architecture.fromNixosSystem "x86_64-linux" = .ok .x86_64) ∧
    ((⟨"x86_64-linux", "sd", "cfg", "pcr", some "pub", some "priv", none, "esp",
        [⟨1, [2], [3], ["a"]⟩, ⟨2, [4], [5], ["b"]⟩]⟩ :
          InstallArgs).effectiveConfigurationLimit = 1 ∧
      (installCli ⟨some "stub"⟩ ⟨"x86_64-linux", "sd", "cfg", "pcr", some "pub",
          some "priv", none, "esp", [⟨1, [2], [3], ["a"]⟩, ⟨2, [4], [5], ["b"]⟩]⟩
        .empty).outcome = .success ∧
      (installCli ⟨some "stub"⟩ ⟨"x86_64-linux", "sd", "cfg", "pcr", some "pub",
          some "priv", none, "esp", [⟨1, [2], [3], ["a"]⟩, ⟨2, [4], [5], ["b"]⟩]⟩
        .empty).state =
        install (cliConfig "stub" "x86_64-linux") 1
          [⟨1, [2], [3], ["a"]⟩, ⟨2, [4], [5], ["b"]⟩] .empty ∧
      ((([⟨1, [2], [3], ["a"]⟩, ⟨2, [4], [5], ["b"]⟩] :
            List Generation).map Generation.version).Nodup →
        ([⟨1, [2], [3], ["a"]⟩, ⟨2, [4], [5], ["b"]⟩] : List Generation) ≠ [] →
        (installCli ⟨some "stub"⟩ ⟨"x86_64-linux", "sd", "cfg", "pcr", some "pub",
            some "priv", none, "esp", [⟨1, [2], [3], ["a"]⟩, ⟨2, [4], [5], ["b"]⟩]⟩
          .empty).state.entries.length = 1 ∧
        ∀ e ∈ (installCli ⟨some "stub"⟩ ⟨"x86_64-linux", "sd", "cfg", "pcr",
            some "pub", some "priv", none, "esp",
            [⟨1, [2], [3], ["a"]⟩, ⟨2, [4], [5], ["b"]⟩]⟩ .empty).state.entries,
          ∀ g ∈ ([⟨1, [2], [3], ["a"]⟩, ⟨2, [4], [5], ["b"]⟩] : List Generation),
            g.version ≤ e.version)) :=
  ⟨⟨rfl, rfl, rfl, rfl, rfl⟩,
    default_configuration_limit ⟨some "stub"⟩ "stub" rfl
      ⟨"x86_64-linux", "sd", "cfg", "pcr", some "pub", some "priv", none, "esp",
        [⟨1, [2], [3], ["a"]⟩, ⟨2, [4], [5], ["b"]⟩]⟩ rfl "pub" "priv" rfl rfl
      .x86_64 rfl⟩

end Lanzaboote
